import Mathlib

/-!
Shallow embedding of the ccload load-tester core: the per-request prober
(makeRequest), the worker-pool dispatcher inside runLoadTest, and the
statistics aggregation (calcStats and the summary construction), translated
from src/index.ts and the historical variants kept in the repository
(src/unnamed/part_000 and src/unnamed/part_001).  Timestamps are modelled as
integers (milliseconds, as produced by Date.now), durations as integers, and
fractional values (seconds, averages, rates) as rationals, with an explicit
model of the non-finite JavaScript number values (Infinity, -Infinity, NaN)
where the code can actually produce them.
-/

/-- RequestStat record from src/index.ts (lines 12-18): statusCode and error
are optional, totalTime is always present, the two byte-timing fields are
optional. -/
structure RequestStat where
  statusCode : Option Nat
  error : Option String
  totalTime : Int
  timeToFirstByte : Option Int
  timeToLastByte : Option Int
deriving DecidableEq, Repr

/-- How a response stream terminates: a normal end event, or an error event
carrying a message. -/
inductive ResponseEnd where
  | ended
  | errored (msg : String)
deriving DecidableEq, Repr

/-- Observable behaviour of one HTTP exchange as seen by the callbacks that
makeRequest installs: either the connection fails before any response (the
error event fires on the request object, never on a response), or a response
arrives carrying an optional raw status (undefined is modelled as none), the
timestamp of the first data chunk if any chunk arrived (none when the body
was empty), the timestamp of the terminal event, and how the stream
terminated. -/
inductive Exchange where
  | connectFailed (msg : String)
  | response (status : Option Nat) (firstByteTime : Option Int)
      (endTime : Int) (fin : ResponseEnd)
deriving DecidableEq, Repr

/-- True exactly when the exchange delivered a response whose stream ended
normally (the end event fired rather than the error event). -/
def Exchange.endedNormally : Exchange → Bool
  | Exchange.response _ _ _ ResponseEnd.ended => true
  | _ => false

/-- makeRequest from src/index.ts (lines 30-66).  The function installs a
data handler recording the first-byte timestamp, an end handler resolving
with statusCode (the JavaScript expression res.statusCode or-else 0, i.e.
0 when the status is absent or itself 0) and the three timings, and an error
handler on the response resolving with the error message, the total time and
no statusCode.  No error handler is ever installed on the request object
itself, so a transport-establishment failure (connection refused, DNS
failure) never settles the promise: that case is modelled as none.  The
byte-timing fields reproduce the JavaScript truthiness test on
firstByteTime: a recorded timestamp of 0 is treated as absent. -/
def makeRequest (startTime : Int) (ex : Exchange) : Option RequestStat :=
  match ex with
  | Exchange.connectFailed _ => none
  | Exchange.response status fb endTime ResponseEnd.ended =>
      some { statusCode := some (status.getD 0)
             error := none
             totalTime := endTime - startTime
             timeToFirstByte :=
               match fb with
               | some t => if t ≠ 0 then some (t - startTime) else none
               | none => none
             timeToLastByte :=
               match fb with
               | some t => if t ≠ 0 then some (endTime - t) else none
               | none => none }
  | Exchange.response _ _ endTime (ResponseEnd.errored msg) =>
      some { statusCode := none
             error := some msg
             totalTime := endTime - startTime
             timeToFirstByte := none
             timeToLastByte := none }

/-- Result of awaiting the promise returned by the extended makeRequest of
src/unnamed/part_001 (lines 214-274): it either resolves with a stat or is
rejected with the transport error. -/
inductive ProbeResult where
  | resolved (stat : RequestStat)
  | rejected (msg : String)
deriving DecidableEq, Repr

/-- makeRequest from src/unnamed/part_001 (lines 214-274), the extended
variant: it keeps statusCode in the stream-error outcome (line 258) and
installs a request-level error handler that rejects the promise (lines
265-268), so a connection failure is surfaced as a rejection that escapes
the awaiting worker. -/
def makeRequestExt (startTime : Int) (ex : Exchange) : ProbeResult :=
  match ex with
  | Exchange.connectFailed msg => ProbeResult.rejected msg
  | Exchange.response status fb endTime ResponseEnd.ended =>
      ProbeResult.resolved
        { statusCode := some (status.getD 0)
          error := none
          totalTime := endTime - startTime
          timeToFirstByte :=
            match fb with
            | some t => if t ≠ 0 then some (t - startTime) else none
            | none => none
          timeToLastByte :=
            match fb with
            | some t => if t ≠ 0 then some (endTime - t) else none
            | none => none }
  | Exchange.response status _ endTime (ResponseEnd.errored msg) =>
      ProbeResult.resolved
        { statusCode := some (status.getD 0)
          error := some msg
          totalTime := endTime - startTime
          timeToFirstByte := none
          timeToLastByte := none }

/-- JavaScript number values the aggregation can produce: a finite value
(idealised as a rational, since every quantity here is a ratio of integers),
positive or negative infinity, or NaN. -/
inductive JSNum where
  | finite (q : ℚ)
  | posInf
  | negInf
  | nan
deriving DecidableEq, Repr

/-- JavaScript division on the values that occur in the aggregation: a
nonzero denominator gives the exact quotient, a zero denominator gives NaN
for 0 over 0 and a signed infinity otherwise. -/
def jsDivQ (a b : ℚ) : JSNum :=
  if b = 0 then
    (if a = 0 then JSNum.nan else if 0 < a then JSNum.posInf else JSNum.negInf)
  else JSNum.finite (a / b)

/-- Min, max and average triple returned by calcStats. -/
structure StatTriple where
  min : JSNum
  max : JSNum
  avg : JSNum
deriving DecidableEq, Repr

/-- calcStats from src/index.ts (lines 72-82): Math.min and Math.max over a
spread argument list (Infinity and -Infinity on an empty array), and the
reduce-accumulated sum divided by the length (NaN on an empty array). -/
def calcStats (values : List ℚ) : StatTriple :=
  { min :=
      match values with
      | [] => JSNum.posInf
      | x :: xs => JSNum.finite (List.foldl min x xs)
    max :=
      match values with
      | [] => JSNum.negInf
      | x :: xs => JSNum.finite (List.foldl max x xs)
    avg := jsDivQ (List.foldl (fun acc v => acc + v) 0 values) (values.length : ℚ) }

/-- Success predicate used by runLoadTest (src/index.ts line 125): the
statusCode is defined and lies in the half-open interval from 200 to 300. -/
def isSuccess (s : RequestStat) : Bool :=
  match s.statusCode with
  | some code => decide (200 ≤ code) && decide (code < 300)
  | none => false

/-- Summary record from src/index.ts (lines 88-95). -/
structure Summary where
  successCount : Nat
  failedCount : Nat
  requestsPerSecond : JSNum
  totalTime : StatTriple
  timeToFirstByte : StatTriple
  timeToLastByte : StatTriple
deriving DecidableEq, Repr

/-- Aggregation tail of runLoadTest from src/index.ts (lines 120-139):
success count by the 2xx filter, failed count as the remainder, requests per
second as numRequests divided by the span in seconds from the start stamp
taken before the workers are launched to the end stamp taken after the join,
and the three metric groups, the byte-timing ones computed only over the
stats on which the field is defined. -/
def buildSummary (stats : List RequestStat) (numRequests : Nat)
    (testStartTime testEndTime : Int) : Summary :=
  { successCount := (stats.filter isSuccess).length
    failedCount := stats.length - (stats.filter isSuccess).length
    requestsPerSecond :=
      jsDivQ (numRequests : ℚ) (((testEndTime - testStartTime : Int) : ℚ) / 1000)
    totalTime := calcStats (stats.map fun s => (s.totalTime : ℚ) / 1000)
    timeToFirstByte :=
      calcStats ((stats.filterMap RequestStat.timeToFirstByte).map
        fun (t : Int) => (t : ℚ) / 1000)
    timeToLastByte :=
      calcStats ((stats.filterMap RequestStat.timeToLastByte).map
        fun (t : Int) => (t : ℚ) / 1000) }

/-- requestsPerSecond as computed by the runLoadTest of src/unnamed/part_001
(lines 141-144): the span is computed as testStartTime minus totalEndTime,
i.e. start minus end, before dividing numRequests by it. -/
def requestsPerSecond_part001 (numRequests : Nat)
    (testStartTime totalEndTime : Int) : JSNum :=
  jsDivQ (numRequests : ℚ) (((testStartTime - totalEndTime : Int) : ℚ) / 1000)

/-- requestsPerSecond as computed by runLoadTest in src/index.ts (lines
120-123): the span is testEndTime minus testStartTime. -/
def requestsPerSecond_index (numRequests : Nat)
    (testStartTime testEndTime : Int) : JSNum :=
  jsDivQ (numRequests : ℚ) (((testEndTime - testStartTime : Int) : ℚ) / 1000)

/-- Which top-level path the dispatch of src/unnamed/part_000 (lines
140-157) and src/unnamed/part_001 (lines 171-188) takes. -/
inductive DispatchPath where
  | single
  | pool
deriving DecidableEq, Repr

/-- Top-level dispatch condition of src/unnamed/part_000 and part_001: one
request with one worker goes to the direct single-request branch that calls
makeRequest once and never builds a summary; every other configuration goes
to the worker-pool runLoadTest. -/
def dispatchPath (numRequests concurrency : Nat) : DispatchPath :=
  if numRequests = 1 ∧ concurrency = 1 then DispatchPath.single
  else DispatchPath.pool

/-- The single-request branch of the top-level dispatch: one direct
makeRequest invocation, i.e. the outcome of the sole probe. -/
def singleRequestRun (probe : Nat → RequestStat) : RequestStat := probe 0

/-- C3: evaluation of the two probers at a transport-establishment failure.
The makeRequest of src/index.ts installs no error handler on the request
object, so a connection-refused exchange never resolves and produces no
RequestStat at all; the extended makeRequest of src/unnamed/part_001
rejects, so the failure escapes the awaiting worker and aborts the joined
run.  Neither matches the claimed behaviour of a failed outcome carrying
errorMessage with the run still completing. -/
theorem transport_error_produces_no_outcome :
    makeRequest 0 (Exchange.connectFailed "connect ECONNREFUSED") = none ∧
    makeRequestExt 0 (Exchange.connectFailed "connect ECONNREFUSED")
      = ProbeResult.rejected "connect ECONNREFUSED" := by
  exact ⟨rfl, rfl⟩

/-- C4: the runLoadTest of src/unnamed/part_001 subtracts the end stamp from
the start stamp (start minus end), so a run that starts at 1000 ms and ends
at 3000 ms with 10 requests reports minus five requests per second, while
the end-minus-start formula of src/index.ts reports plus five on the same
stamps. -/
theorem rps_reversed_span_is_negative :
    requestsPerSecond_part001 10 1000 3000 = JSNum.finite (-5) ∧
    requestsPerSecond_index 10 1000 3000 = JSNum.finite 5 := by
  constructor <;> · simp only [requestsPerSecond_part001, requestsPerSecond_index, jsDivQ]
                    norm_num

/-- C5: for every outcome that the makeRequest of src/index.ts resolves, if
both byte-timing fields are present then their sum equals the total time,
because time to first byte is measured from issue and time to last byte
from the first byte. -/
theorem ttfb_add_ttlb_eq_totalTime (startTime : Int) (ex : Exchange)
    (stat : RequestStat) (a b : Int)
    (h : makeRequest startTime ex = some stat)
    (ha : stat.timeToFirstByte = some a)
    (hb : stat.timeToLastByte = some b) :
    a + b = stat.totalTime := by
  cases ex with
  | connectFailed msg => simp [makeRequest] at h
  | response status fb endTime fin =>
    cases fin with
    | errored msg =>
      simp only [makeRequest, Option.some.injEq] at h
      subst h
      simp at ha
    | ended =>
      cases fb with
      | none =>
        simp only [makeRequest, Option.some.injEq] at h
        subst h
        simp at ha
      | some t =>
        by_cases ht : t = 0
        · simp only [makeRequest, ht, ne_eq, not_true_eq_false, if_false,
            Option.some.injEq] at h
          subst h
          simp at ha
        · simp only [makeRequest, ne_eq, ht, not_false_eq_true, if_true,
            Option.some.injEq] at h
          subst h
          simp only [Option.some.injEq] at ha hb
          subst ha
          subst hb
          show t - startTime + (endTime - t) = endTime - startTime
          omega

def exW5 : Exchange := Exchange.response (some 200) (some 50) 100 ResponseEnd.ended

def statW5 : RequestStat :=
  { statusCode := some 200, error := none, totalTime := 100,
    timeToFirstByte := some 50, timeToLastByte := some 50 }

/-- Witness for C5 at a concrete exchange: first byte at 50 ms, end at
100 ms, issued at 0. -/
theorem ttfb_add_ttlb_eq_totalTime_witness :
    makeRequest 0 exW5 = some statW5 ∧ (50 : Int) + 50 = statW5.totalTime :=
  ⟨rfl, ttfb_add_ttlb_eq_totalTime 0 exW5 statW5 50 50 rfl rfl rfl⟩

/-- C6 counterexample: aggregating an empty outcome collection does not fail
at all — buildSummary is total, there is no EmptyResultError anywhere in the
code — and the summary it returns silently carries NaN as the mean and the
infinities as min and max of the totalTime group, refuting the claim that
NaN or infinite values never surface. -/
theorem empty_aggregation_yields_nan_inf :
    (buildSummary [] 0 1000 3000).totalTime.avg = JSNum.nan ∧
    (buildSummary [] 0 1000 3000).totalTime.min = JSNum.posInf ∧
    (buildSummary [] 0 1000 3000).totalTime.max = JSNum.negInf := by
  exact ⟨rfl, rfl, rfl⟩

/-- C6 amended: aggregating an empty outcome collection never raises; for
every configuration each of the three metric groups of the resulting
summary is exactly min equal to Infinity, max equal to -Infinity and mean
equal to NaN, the untreated values of an empty Math.min, Math.max and a zero
by zero division. -/
theorem empty_aggregation_silent_values (numRequests : Nat)
    (testStartTime testEndTime : Int) :
    (buildSummary [] numRequests testStartTime testEndTime).totalTime
        = ⟨JSNum.posInf, JSNum.negInf, JSNum.nan⟩ ∧
    (buildSummary [] numRequests testStartTime testEndTime).timeToFirstByte
        = ⟨JSNum.posInf, JSNum.negInf, JSNum.nan⟩ ∧
    (buildSummary [] numRequests testStartTime testEndTime).timeToLastByte
        = ⟨JSNum.posInf, JSNum.negInf, JSNum.nan⟩ := by
  exact ⟨rfl, rfl, rfl⟩

/-- C8 counterexample: an exchange that delivered a response with status 200
and a first byte at 10 ms but whose stream then errored resolves, in the
makeRequest of src/index.ts, to an outcome with no statusCode at all, even
though a response was received. -/
theorem statusCode_absent_after_stream_error :
    makeRequest 0
        (Exchange.response (some 200) (some 10) 100
          (ResponseEnd.errored "read ECONNRESET"))
      = some { statusCode := none, error := some "read ECONNRESET",
               totalTime := 100, timeToFirstByte := none,
               timeToLastByte := none } := by
  exact rfl

/-- C8 amended: in every outcome that the makeRequest of src/index.ts
resolves, statusCode is present exactly when the response stream ended
normally, and errorMessage is present exactly when it did not; a stream
error after headers therefore drops the received status, and an exchange
that fails before any response resolves no outcome at all. -/
theorem statusCode_iff_stream_ended (startTime : Int) (ex : Exchange)
    (stat : RequestStat) (h : makeRequest startTime ex = some stat) :
    stat.statusCode.isSome = ex.endedNormally ∧
    stat.error.isSome = (!ex.endedNormally) := by
  cases ex with
  | connectFailed msg => simp [makeRequest] at h
  | response status fb endTime fin =>
    cases fin with
    | ended =>
      simp only [makeRequest, Option.some.injEq] at h
      subst h
      exact ⟨rfl, rfl⟩
    | errored msg =>
      simp only [makeRequest, Option.some.injEq] at h
      subst h
      exact ⟨rfl, rfl⟩

def exW8 : Exchange := Exchange.response (some 200) (some 30) 90 ResponseEnd.ended

def statW8 : RequestStat :=
  { statusCode := some 200, error := none, totalTime := 90,
    timeToFirstByte := some 30, timeToLastByte := some 60 }

/-- Witness for the amended C8 at a concrete normally-ended exchange. -/
theorem statusCode_iff_stream_ended_witness :
    statW8.statusCode.isSome = exW8.endedNormally ∧
    statW8.error.isSome = (!exW8.endedNormally) :=
  statusCode_iff_stream_ended 0 exW8 statW8 rfl

/-- C10: every outcome that the makeRequest of src/index.ts resolves carries
exactly one of statusCode and error; an outcome resolved on stream end has
statusCode and no error, an outcome resolved on a stream error has error and
no statusCode, and a response whose transport reported no status resolves
with statusCode 0, which the success filter of runLoadTest counts as a
failure. -/
theorem outcome_statusCode_xor_error (startTime : Int) (ex : Exchange)
    (stat : RequestStat) (h : makeRequest startTime ex = some stat) :
    ((stat.statusCode.isSome = true ∧ stat.error = none) ∨
      (stat.statusCode = none ∧ stat.error.isSome = true)) ∧
    (ex.endedNormally = true →
      stat.statusCode.isSome = true ∧ stat.error = none) ∧
    (ex.endedNormally = false →
      stat.statusCode = none ∧ stat.error.isSome = true) ∧
    (∀ fb e2, ex = Exchange.response none fb e2 ResponseEnd.ended →
      stat.statusCode = some 0 ∧ isSuccess stat = false) := by
  cases ex with
  | connectFailed msg => simp [makeRequest] at h
  | response status fb endTime fin =>
    cases fin with
    | ended =>
      simp only [makeRequest, Option.some.injEq] at h
      subst h
      refine ⟨Or.inl ⟨rfl, rfl⟩, fun _ => ⟨rfl, rfl⟩, ?_, ?_⟩
      · intro hcontra
        simp [Exchange.endedNormally] at hcontra
      · intro fb2 e2 heq
        cases heq
        exact ⟨rfl, rfl⟩
    | errored msg =>
      simp only [makeRequest, Option.some.injEq] at h
      subst h
      refine ⟨Or.inr ⟨rfl, rfl⟩, ?_, fun _ => ⟨rfl, rfl⟩, ?_⟩
      · intro hcontra
        simp [Exchange.endedNormally] at hcontra
      · intro fb2 e2 heq
        cases heq

def exW10 : Exchange := Exchange.response none (some 5) 80 ResponseEnd.ended

def statW10 : RequestStat :=
  { statusCode := some 0, error := none, totalTime := 80,
    timeToFirstByte := some 5, timeToLastByte := some 75 }

/-- Witness for C10 at a concrete statusless exchange: the resolved outcome
carries statusCode 0 and is counted as a failure. -/
theorem outcome_statusCode_xor_error_witness :
    statW10.statusCode = some 0 ∧ isSuccess statW10 = false :=
  (outcome_statusCode_xor_error 0 exW10 statW10 rfl).2.2.2 (some 5) 80 rfl

/-- A stat triple is ordered when it consists of three finite values with
the min below the average and the average below the max. -/
def StatTriple.ordered (t : StatTriple) : Prop :=
  ∃ mn mx av : ℚ, t = ⟨JSNum.finite mn, JSNum.finite mx, JSNum.finite av⟩
    ∧ mn ≤ av ∧ av ≤ mx

lemma foldl_add_shift (xs : List ℚ) (a : ℚ) :
    List.foldl (fun acc v => acc + v) a xs
      = a + List.foldl (fun acc v => acc + v) 0 xs := by
  induction xs generalizing a with
  | nil => simp
  | cons x t ih =>
    simp only [List.foldl]
    rw [ih (a + x), ih (0 + x)]
    ring

lemma foldl_min_le (xs : List ℚ) (x : ℚ) :
    List.foldl min x xs ≤ x ∧ ∀ y ∈ xs, List.foldl min x xs ≤ y := by
  induction xs generalizing x with
  | nil => simp
  | cons z t ih =>
    refine ⟨le_trans (ih (min x z)).1 (min_le_left x z), ?_⟩
    intro y hy
    rcases List.mem_cons.mp hy with hz | hmem
    · subst hz
      exact le_trans (ih (min x y)).1 (min_le_right x y)
    · exact (ih (min x z)).2 y hmem

lemma le_foldl_max (xs : List ℚ) (x : ℚ) :
    x ≤ List.foldl max x xs ∧ ∀ y ∈ xs, y ≤ List.foldl max x xs := by
  induction xs generalizing x with
  | nil => simp
  | cons z t ih =>
    refine ⟨le_trans (le_max_left x z) (ih (max x z)).1, ?_⟩
    intro y hy
    rcases List.mem_cons.mp hy with hz | hmem
    · subst hz
      exact le_trans (le_max_right x y) (ih (max x y)).1
    · exact (ih (max x z)).2 y hmem

lemma length_mul_le_sum (xs : List ℚ) (m : ℚ) (h : ∀ y ∈ xs, m ≤ y) :
    (xs.length : ℚ) * m ≤ List.foldl (fun acc v => acc + v) 0 xs := by
  induction xs with
  | nil => simp
  | cons x t ih =>
    have hx : m ≤ x := h x (List.mem_cons_self x t)
    have ht := ih fun y hy => h y (List.mem_cons_of_mem x hy)
    simp only [List.foldl]
    rw [foldl_add_shift t (0 + x)]
    have hlen : ((x :: t).length : ℚ) * m = (t.length : ℚ) * m + m := by
      simp [List.length_cons]
      ring
    rw [hlen]
    linarith

lemma sum_le_length_mul (xs : List ℚ) (m : ℚ) (h : ∀ y ∈ xs, y ≤ m) :
    List.foldl (fun acc v => acc + v) 0 xs ≤ (xs.length : ℚ) * m := by
  induction xs with
  | nil => simp
  | cons x t ih =>
    have hx : x ≤ m := h x (List.mem_cons_self x t)
    have ht := ih fun y hy => h y (List.mem_cons_of_mem x hy)
    simp only [List.foldl]
    rw [foldl_add_shift t (0 + x)]
    have hlen : ((x :: t).length : ℚ) * m = (t.length : ℚ) * m + m := by
      simp [List.length_cons]
      ring
    rw [hlen]
    linarith

lemma calcStats_ordered (values : List ℚ) (h : values ≠ []) :
    (calcStats values).ordered := by
  cases values with
  | nil => exact absurd rfl h
  | cons x xs =>
    set m := List.foldl min x xs with hm
    set M := List.foldl max x xs with hM
    set S := List.foldl (fun acc v => acc + v) 0 (x :: xs) with hS
    have hlenpos : (0 : ℚ) < ((x :: xs).length : ℚ) := by
      simp [List.length_cons]
      positivity
    have hlow : ∀ y ∈ x :: xs, m ≤ y := by
      intro y hy
      rcases List.mem_cons.mp hy with hz | hmem
      · subst hz
        exact (foldl_min_le xs y).1
      · exact (foldl_min_le xs x).2 y hmem
    have hhigh : ∀ y ∈ x :: xs, y ≤ M := by
      intro y hy
      rcases List.mem_cons.mp hy with hz | hmem
      · subst hz
        exact (le_foldl_max xs y).1
      · exact (le_foldl_max xs x).2 y hmem
    have hsumlow := length_mul_le_sum (x :: xs) m hlow
    have hsumhigh := sum_le_length_mul (x :: xs) M hhigh
    refine ⟨m, M, S / ((x :: xs).length : ℚ), ?_, ?_, ?_⟩
    · show calcStats (x :: xs)
        = ⟨JSNum.finite m, JSNum.finite M, JSNum.finite (S / ((x :: xs).length : ℚ))⟩
      simp only [calcStats, jsDivQ, ← hS]
      rw [if_neg (ne_of_gt hlenpos)]
    · rw [le_div_iff₀ hlenpos]
      rw [mul_comm]
      exact hsumlow
    · rw [div_le_iff₀ hlenpos]
      rw [mul_comm]
      exact hsumhigh

/-- C7: in the summary built by runLoadTest of src/index.ts, whenever the
value list of a metric group is non-empty — all outcomes for the totalTime
group, only the outcomes on which the field is defined for the two
byte-timing groups — that group consists of finite values with min at most
mean and mean at most max. -/
theorem metric_groups_min_le_mean_le_max (stats : List RequestStat)
    (numRequests : Nat) (testStartTime testEndTime : Int) :
    (stats ≠ [] →
      ((buildSummary stats numRequests testStartTime testEndTime).totalTime).ordered) ∧
    (stats.filterMap RequestStat.timeToFirstByte ≠ [] →
      ((buildSummary stats numRequests testStartTime testEndTime).timeToFirstByte).ordered) ∧
    (stats.filterMap RequestStat.timeToLastByte ≠ [] →
      ((buildSummary stats numRequests testStartTime testEndTime).timeToLastByte).ordered) := by
  refine ⟨?_, ?_, ?_⟩
  · intro hne
    exact calcStats_ordered _ fun hmap => hne (List.map_eq_nil_iff.mp hmap)
  · intro hne
    exact calcStats_ordered _ fun hmap => hne (List.map_eq_nil_iff.mp hmap)
  · intro hne
    exact calcStats_ordered _ fun hmap => hne (List.map_eq_nil_iff.mp hmap)

def statsW7 : List RequestStat :=
  [ { statusCode := some 200, error := none, totalTime := 100,
      timeToFirstByte := some 40, timeToLastByte := some 60 },
    { statusCode := some 500, error := none, totalTime := 200,
      timeToFirstByte := some 50, timeToLastByte := some 150 } ]

/-- Witness for C7 on a concrete two-outcome run in which every metric field
is present. -/
theorem metric_groups_min_le_mean_le_max_witness :
    ((buildSummary statsW7 2 0 1000).totalTime).ordered ∧
    ((buildSummary statsW7 2 0 1000).timeToFirstByte).ordered ∧
    ((buildSummary statsW7 2 0 1000).timeToLastByte).ordered :=
  ⟨(metric_groups_min_le_mean_le_max statsW7 2 0 1000).1 (by decide),
   (metric_groups_min_le_mean_le_max statsW7 2 0 1000).2.1 (by decide),
   (metric_groups_min_le_mean_le_max statsW7 2 0 1000).2.2 (by decide)⟩

/-- Execution status of one worker of runLoadTest (src/index.ts lines
106-112): ready means the worker is at the loop head about to test the
shared counter; awaiting k means it has claimed unit k (the counter was
incremented from k to k plus one in the same synchronous step, since no
await separates the test from the increment) and is suspended on the
makeRequest promise; done means the while loop has exited. -/
inductive WStatus where
  | ready
  | awaiting (k : Nat)
  | done
deriving DecidableEq, Repr

/-- Shared state of a run of runLoadTest: the requestSent counter, the
stats array, and the status of each of the concurrency workers. -/
structure RunState where
  requestSent : Nat
  stats : List RequestStat
  workers : List WStatus
deriving DecidableEq, Repr

/-- State before any worker has run: counter zero, empty stats, every
worker at the loop head. -/
def initState (concurrency : Nat) : RunState :=
  { requestSent := 0, stats := [], workers := List.replicate concurrency WStatus.ready }

/-- Small-step semantics of the worker pool of runLoadTest (src/index.ts
lines 101-119) under an arbitrary cooperative schedule.  The probe oracle
gives the stat that the k-th claimed makeRequest invocation resolves with.
A claim step is the synchronous run from the loop test through the counter
increment to the suspension on makeRequest — one probe invocation exactly;
a finish step is a loop test that fails, exiting the while loop; a resolve
step is the resumption after the awaited promise settles, pushing the stat
and returning to the loop head. -/
inductive Step (n : Nat) (probe : Nat → RequestStat) : RunState → RunState → Prop where
  | claim (rs : Nat) (stats : List RequestStat) (ws : List WStatus) (i : Nat)
      (h : ws[i]? = some WStatus.ready) (hlt : rs < n) :
      Step n probe ⟨rs, stats, ws⟩ ⟨rs + 1, stats, ws.set i (WStatus.awaiting rs)⟩
  | finish (rs : Nat) (stats : List RequestStat) (ws : List WStatus) (i : Nat)
      (h : ws[i]? = some WStatus.ready) (hge : n ≤ rs) :
      Step n probe ⟨rs, stats, ws⟩ ⟨rs, stats, ws.set i WStatus.done⟩
  | resolve (rs : Nat) (stats : List RequestStat) (ws : List WStatus) (i k : Nat)
      (h : ws[i]? = some (WStatus.awaiting k)) :
      Step n probe ⟨rs, stats, ws⟩ ⟨rs, stats ++ [probe k], ws.set i WStatus.ready⟩

/-- A state is reachable when some interleaving of worker steps produces it
from the initial state. -/
def Reachable (n c : Nat) (probe : Nat → RequestStat) (st : RunState) : Prop :=
  Relation.ReflTransGen (Step n probe) (initState c) st

/-- A run is complete when every worker has left its loop, i.e. the point
after the bulk join on all the worker promises. -/
def Terminal (st : RunState) : Prop :=
  ∀ w ∈ st.workers, w = WStatus.done

/-- True on a worker that is suspended on an in-flight probe. -/
def isAwaitingW : WStatus → Bool
  | WStatus.awaiting _ => true
  | _ => false

/-- Number of in-flight probes. -/
def countAwaiting (ws : List WStatus) : Nat :=
  (ws.filter isAwaitingW).length

lemma countAwaiting_cons (x : WStatus) (t : List WStatus) :
    countAwaiting (x :: t)
      = (if isAwaitingW x then 1 else 0) + countAwaiting t := by
  simp only [countAwaiting, List.filter_cons]
  cases hx : isAwaitingW x
  · simp
  · simp
    omega

lemma countAwaiting_set (ws : List WStatus) (i : Nat) (w wNew : WStatus)
    (h : ws[i]? = some w) :
    countAwaiting (ws.set i wNew) + (if isAwaitingW w then 1 else 0)
      = countAwaiting ws + (if isAwaitingW wNew then 1 else 0) := by
  induction ws generalizing i with
  | nil => simp at h
  | cons x t ih =>
    cases i with
    | zero =>
      simp only [List.getElem?_cons_zero, Option.some.injEq] at h
      subst h
      simp only [List.set_cons_zero, countAwaiting_cons]
      omega
    | succ j =>
      simp only [List.getElem?_cons_succ] at h
      simp only [List.set_cons_succ, countAwaiting_cons]
      have := ih j h
      omega

lemma countAwaiting_replicate_ready (c : Nat) :
    countAwaiting (List.replicate c WStatus.ready) = 0 := by
  induction c with
  | zero => rfl
  | succ m ih =>
    rw [List.replicate_succ, countAwaiting_cons]
    simp [isAwaitingW, ih]

lemma countAwaiting_all_done (ws : List WStatus)
    (h : ∀ w ∈ ws, w = WStatus.done) : countAwaiting ws = 0 := by
  induction ws with
  | nil => rfl
  | cons x t ih =>
    rw [countAwaiting_cons, h x (List.mem_cons_self x t)]
    have ht := ih fun w hw => h w (List.mem_cons_of_mem x hw)
    simp [isAwaitingW, ht]

lemma mem_of_getElemQuery {α : Type} {l : List α} {i : Nat} {a : α}
    (h : l[i]? = some a) : a ∈ l := by
  obtain ⟨hlt, hel⟩ := List.getElem?_eq_some.mp h
  rw [← hel]
  exact List.getElem_mem hlt

/-- Inductive invariant of the worker pool: the worker list keeps its size;
the counter never exceeds the configured total; the counter equals the
number of pushed stats plus the number of in-flight probes (each claimed
unit is either still in flight or already pushed, exactly once); once any
worker has exited, the counter has already reached the total; every
in-flight claim index is below the total; and every pushed stat is the
probe outcome of some claimed index below the total. -/
def PoolInv (n c : Nat) (probe : Nat → RequestStat) (st : RunState) : Prop :=
  st.workers.length = c ∧
  st.requestSent ≤ n ∧
  st.requestSent = st.stats.length + countAwaiting st.workers ∧
  (∀ w ∈ st.workers, w = WStatus.done → n ≤ st.requestSent) ∧
  (∀ w ∈ st.workers, ∀ k, w = WStatus.awaiting k → k < n) ∧
  (∀ x ∈ st.stats, ∃ k, k < n ∧ x = probe k)

lemma inv_init (n c : Nat) (probe : Nat → RequestStat) :
    PoolInv n c probe (initState c) := by
  refine ⟨by simp [initState], by simp [initState], ?_, ?_, ?_, ?_⟩
  · simp [initState, countAwaiting_replicate_ready]
  · intro w hw hdone
    rw [List.eq_of_mem_replicate hw] at hdone
    cases hdone
  · intro w hw k hk
    rw [List.eq_of_mem_replicate hw] at hk
    cases hk
  · intro x hx
    simp [initState] at hx

lemma inv_step (n c : Nat) (probe : Nat → RequestStat) (s1 s2 : RunState)
    (hstep : Step n probe s1 s2) (hinv : PoolInv n c probe s1) :
    PoolInv n c probe s2 := by
  obtain ⟨hlen, hle, hcount, hdone, hawait, hstats⟩ := hinv
  cases hstep with
  | claim rs stats ws i h hlt =>
    dsimp only at hlen hle hcount hdone hawait hstats
    dsimp only [PoolInv]
    have hset := countAwaiting_set ws i WStatus.ready (WStatus.awaiting rs) h
    simp [isAwaitingW] at hset
    refine ⟨by simpa using hlen, by omega, by omega, ?_, ?_, hstats⟩
    · intro w hw hwdone
      rcases List.mem_or_eq_of_mem_set hw with hmem | hnew
      · have := hdone w hmem hwdone
        omega
      · rw [hnew] at hwdone
        cases hwdone
    · intro w hw k hk
      rcases List.mem_or_eq_of_mem_set hw with hmem | hnew
      · exact hawait w hmem k hk
      · rw [hnew] at hk
        cases hk
        omega
  | finish rs stats ws i h hge =>
    dsimp only at hlen hle hcount hdone hawait hstats
    dsimp only [PoolInv]
    have hset := countAwaiting_set ws i WStatus.ready WStatus.done h
    simp [isAwaitingW] at hset
    refine ⟨by simpa using hlen, hle, by omega, ?_, ?_, hstats⟩
    · intro w hw hwdone
      rcases List.mem_or_eq_of_mem_set hw with hmem | hnew
      · exact hdone w hmem hwdone
      · exact hge
    · intro w hw k hk
      rcases List.mem_or_eq_of_mem_set hw with hmem | hnew
      · exact hawait w hmem k hk
      · rw [hnew] at hk
        cases hk
  | resolve rs stats ws i k h =>
    dsimp only at hlen hle hcount hdone hawait hstats
    dsimp only [PoolInv]
    have hset := countAwaiting_set ws i (WStatus.awaiting k) WStatus.ready h
    simp [isAwaitingW] at hset
    have hkmem : WStatus.awaiting k ∈ ws := mem_of_getElemQuery h
    have hkn : k < n := hawait (WStatus.awaiting k) hkmem k rfl
    refine ⟨by simpa using hlen, hle, ?_, ?_, ?_, ?_⟩
    · simp only [List.length_append, List.length_singleton]
      omega
    · intro w hw hwdone
      rcases List.mem_or_eq_of_mem_set hw with hmem | hnew
      · exact hdone w hmem hwdone
      · rw [hnew] at hwdone
        cases hwdone
    · intro w hw k2 hk2
      rcases List.mem_or_eq_of_mem_set hw with hmem | hnew
      · exact hawait w hmem k2 hk2
      · rw [hnew] at hk2
        cases hk2
    · intro x hx
      rcases List.mem_append.mp hx with hmem | hone
      · exact hstats x hmem
      · rw [List.mem_singleton.mp hone]
        exact ⟨k, hkn, rfl⟩

lemma inv_reachable (n c : Nat) (probe : Nat → RequestStat) (st : RunState)
    (hr : Reachable n c probe st) : PoolInv n c probe st := by
  have hr2 : Relation.ReflTransGen (Step n probe) (initState c) st := hr
  clear hr
  induction hr2 with
  | refl => exact inv_init n c probe
  | tail hsteps hstep ih => exact inv_step n c probe _ _ hstep ih

/-- In every complete reachable run with at least one worker, the counter
and the stats array have both reached exactly the configured total. -/
lemma terminal_counts (n c : Nat) (probe : Nat → RequestStat) (st : RunState)
    (hc : 0 < c) (hr : Reachable n c probe st) (ht : Terminal st) :
    st.requestSent = n ∧ st.stats.length = n := by
  obtain ⟨hlen, hle, hcount, hdone, _, _⟩ := inv_reachable n c probe st hr
  have hcaw := countAwaiting_all_done st.workers ht
  have hne : st.workers ≠ [] := by
    intro hnil
    rw [hnil] at hlen
    simp at hlen
    omega
  obtain ⟨w, hw⟩ := List.exists_mem_of_ne_nil st.workers hne
  have hge := hdone w hw (ht w hw)
  omega

/-- In a complete reachable single-request single-worker run, the stats
array is exactly the one outcome of the sole probe invocation. -/
lemma terminal_single (probe : Nat → RequestStat) (st : RunState)
    (hr : Reachable 1 1 probe st) (ht : Terminal st) :
    st.stats = [probe 0] := by
  have hcounts := terminal_counts 1 1 probe st (by omega) hr ht
  obtain ⟨_, _, _, _, _, hstats⟩ := inv_reachable 1 1 probe st hr
  obtain ⟨x, hx⟩ := List.length_eq_one.mp hcounts.2
  obtain ⟨k, hk, hxk⟩ := hstats x (by rw [hx]; exact List.mem_singleton_self x)
  have hk0 : k = 0 := by omega
  rw [hx, hxk, hk0]

/-- C1: in every complete run of the worker pool with positive request count
and positive concurrency, under any interleaving, the shared counter — which
is incremented exactly once per makeRequest invocation, in the claim step —
has reached exactly the configured request count, and the shared stats
collection holds exactly that many outcomes: no unit of work is duplicated
or dropped, and when concurrency exceeds the request count the surplus
workers claim nothing. -/
theorem dispatch_exactly_requestCount (n c : Nat) (probe : Nat → RequestStat)
    (_hn : 0 < n) (hc : 0 < c) (st : RunState)
    (hr : Reachable n c probe st) (ht : Terminal st) :
    st.requestSent = n ∧ st.stats.length = n :=
  terminal_counts n c probe st hc hr ht

/-- Probe oracle used by the concrete witness runs. -/
def probeW : Nat → RequestStat := fun _ =>
  { statusCode := some 200, error := none, totalTime := 120,
    timeToFirstByte := some 80, timeToLastByte := some 40 }

/-- Final state of a concrete complete run with two requests and three
workers: the third worker found no work and claimed nothing. -/
def runFinalW : RunState :=
  { requestSent := 2, stats := [probeW 0, probeW 1],
    workers := [WStatus.done, WStatus.done, WStatus.done] }

lemma runFinalW_reachable : Reachable 2 3 probeW runFinalW := by
  have h1 : Step 2 probeW (initState 3)
      ⟨1, [], [WStatus.awaiting 0, WStatus.ready, WStatus.ready]⟩ :=
    Step.claim 0 [] [WStatus.ready, WStatus.ready, WStatus.ready] 0 rfl (by omega)
  have h2 : Step 2 probeW ⟨1, [], [WStatus.awaiting 0, WStatus.ready, WStatus.ready]⟩
      ⟨2, [], [WStatus.awaiting 0, WStatus.awaiting 1, WStatus.ready]⟩ :=
    Step.claim 1 [] [WStatus.awaiting 0, WStatus.ready, WStatus.ready] 1 rfl (by omega)
  have h3 : Step 2 probeW ⟨2, [], [WStatus.awaiting 0, WStatus.awaiting 1, WStatus.ready]⟩
      ⟨2, [], [WStatus.awaiting 0, WStatus.awaiting 1, WStatus.done]⟩ :=
    Step.finish 2 [] [WStatus.awaiting 0, WStatus.awaiting 1, WStatus.ready] 2 rfl (by omega)
  have h4 : Step 2 probeW ⟨2, [], [WStatus.awaiting 0, WStatus.awaiting 1, WStatus.done]⟩
      ⟨2, [probeW 0], [WStatus.ready, WStatus.awaiting 1, WStatus.done]⟩ :=
    Step.resolve 2 [] [WStatus.awaiting 0, WStatus.awaiting 1, WStatus.done] 0 0 rfl
  have h5 : Step 2 probeW ⟨2, [probeW 0], [WStatus.ready, WStatus.awaiting 1, WStatus.done]⟩
      ⟨2, [probeW 0, probeW 1], [WStatus.ready, WStatus.ready, WStatus.done]⟩ :=
    Step.resolve 2 [probeW 0] [WStatus.ready, WStatus.awaiting 1, WStatus.done] 1 1 rfl
  have h6 : Step 2 probeW ⟨2, [probeW 0, probeW 1], [WStatus.ready, WStatus.ready, WStatus.done]⟩
      ⟨2, [probeW 0, probeW 1], [WStatus.done, WStatus.ready, WStatus.done]⟩ :=
    Step.finish 2 [probeW 0, probeW 1] [WStatus.ready, WStatus.ready, WStatus.done] 0 rfl (by omega)
  have h7 : Step 2 probeW ⟨2, [probeW 0, probeW 1], [WStatus.done, WStatus.ready, WStatus.done]⟩
      runFinalW :=
    Step.finish 2 [probeW 0, probeW 1] [WStatus.done, WStatus.ready, WStatus.done] 1 rfl (by omega)
  exact Relation.ReflTransGen.tail (Relation.ReflTransGen.tail
    (Relation.ReflTransGen.tail (Relation.ReflTransGen.tail
      (Relation.ReflTransGen.tail (Relation.ReflTransGen.tail
        (Relation.ReflTransGen.tail Relation.ReflTransGen.refl h1) h2) h3) h4) h5) h6) h7

lemma runFinalW_terminal : Terminal runFinalW := by
  intro w hw
  simp [runFinalW] at hw
  exact hw

/-- Witness for C1 on a concrete complete run with two requests, three
workers and an arbitrary interleaving. -/
theorem dispatch_exactly_requestCount_witness :
    runFinalW.requestSent = 2 ∧ runFinalW.stats.length = 2 :=
  dispatch_exactly_requestCount 2 3 probeW (by omega) (by omega) runFinalW
    runFinalW_reachable runFinalW_terminal

/-- C2: for every complete run, the summary built by runLoadTest satisfies
successCount plus failedCount equals the configured request count, where
successCount counts the outcomes whose statusCode is present and in the
interval from 200 up to but excluding 300, and failedCount is the number of
outcomes minus successCount. -/
theorem summary_success_failed_partition (n c : Nat) (probe : Nat → RequestStat)
    (hc : 0 < c) (st : RunState) (hr : Reachable n c probe st) (ht : Terminal st)
    (testStartTime testEndTime : Int) :
    (buildSummary st.stats n testStartTime testEndTime).successCount
      + (buildSummary st.stats n testStartTime testEndTime).failedCount = n := by
  have hlenn := (terminal_counts n c probe st hc hr ht).2
  have hfilter : (st.stats.filter isSuccess).length ≤ st.stats.length :=
    List.length_filter_le isSuccess st.stats
  show (st.stats.filter isSuccess).length
    + (st.stats.length - (st.stats.filter isSuccess).length) = n
  omega

/-- Witness for C2 on the same concrete complete run as the C1 witness. -/
theorem summary_success_failed_partition_witness :
    (buildSummary runFinalW.stats 2 0 1000).successCount
      + (buildSummary runFinalW.stats 2 0 1000).failedCount = 2 :=
  summary_success_failed_partition 2 3 probeW (by omega) runFinalW
    runFinalW_reachable runFinalW_terminal 0 1000

/-- C9 counterexample: the top-level dispatch of src/unnamed/part_000 and
src/unnamed/part_001 routes the one-request one-worker configuration to the
dedicated single-request branch, not to the worker-pool path used by every
other configuration. -/
theorem single_request_separate_path :
    dispatchPath 1 1 = DispatchPath.single ∧
    dispatchPath 1 1 ≠ DispatchPath.pool ∧
    dispatchPath 2 1 = DispatchPath.pool := by
  decide

/-- C9 amended: the one-request one-worker configuration takes the separate
single-request branch, but that branch is outcome-equivalent to the general
algorithm: for identical per-request behaviour, every complete worker-pool
run with one request and one worker produces exactly the outcome list whose
sole element is the outcome the direct branch obtains from its single
makeRequest invocation. -/
theorem single_request_same_outcome :
    dispatchPath 1 1 = DispatchPath.single ∧
    ∀ (probe : Nat → RequestStat) (st : RunState),
      Reachable 1 1 probe st → Terminal st →
        st.stats = [singleRequestRun probe] := by
  refine ⟨by decide, ?_⟩
  intro probe st hr ht
  exact terminal_single probe st hr ht

/-- Final state of a concrete complete run with one request and one worker. -/
def runFinal9 : RunState :=
  { requestSent := 1, stats := [probeW 0], workers := [WStatus.done] }

lemma runFinal9_reachable : Reachable 1 1 probeW runFinal9 := by
  have h1 : Step 1 probeW (initState 1) ⟨1, [], [WStatus.awaiting 0]⟩ :=
    Step.claim 0 [] [WStatus.ready] 0 rfl (by omega)
  have h2 : Step 1 probeW ⟨1, [], [WStatus.awaiting 0]⟩
      ⟨1, [probeW 0], [WStatus.ready]⟩ :=
    Step.resolve 1 [] [WStatus.awaiting 0] 0 0 rfl
  have h3 : Step 1 probeW ⟨1, [probeW 0], [WStatus.ready]⟩ runFinal9 :=
    Step.finish 1 [probeW 0] [WStatus.ready] 0 rfl (by omega)
  exact Relation.ReflTransGen.tail (Relation.ReflTransGen.tail
    (Relation.ReflTransGen.tail Relation.ReflTransGen.refl h1) h2) h3

lemma runFinal9_terminal : Terminal runFinal9 := by
  intro w hw
  simp [runFinal9] at hw
  exact hw

/-- Witness for the amended C9 on a concrete complete one-request
one-worker run. -/
theorem single_request_same_outcome_witness :
    runFinal9.stats = [singleRequestRun probeW] :=
  single_request_same_outcome.2 probeW runFinal9 runFinal9_reachable
    runFinal9_terminal
